import Mathlib

/-!
Shallow embedding of the IC-TODO canister (`src/index.ts`), an Azle to-do
service over a `StableBTreeMap<string, ToDo>`.  The store is modelled as a
key-sorted association list; `nat64` timestamps are modelled as `Nat`
(Azle represents `nat64` as an exact bigint, so no wraparound occurs in
this program).  Fallible endpoints return `Except String`; update calls
additionally return the resulting store.  The ambient `uuidv4()` and
`ic.time()` collaborators are passed as explicit parameters.
-/

namespace ICTodo

/-- The persisted `ToDo` record type from `index.ts`. -/
structure ToDo where
  id : String
  title : String
  body : String
  tag : String
  completed : Bool
  created_at : Nat
  updated_at : Option Nat
deriving DecidableEq, Repr

/-- The `ToDoPayload` input type (mutable subset of `ToDo`). -/
structure ToDoPayload where
  title : String
  body : String
  tag : String
deriving DecidableEq, Repr

/-- The `todosStorage` map: key-ordered sequence of (id, record) entries. -/
abbrev Store := List (String × ToDo)

/-- `StableBTreeMap.get`: first entry with the given key. -/
def mapGet : Store → String → Option ToDo
  | [], _ => none
  | (k', v) :: rest, k => if k' = k then some v else mapGet rest k

/-- `StableBTreeMap.insert`: replace an existing key in place, otherwise
insert at the key-ordered position. -/
def mapInsert : Store → String → ToDo → Store
  | [], k, v => [(k, v)]
  | (k', v') :: rest, k, v =>
    if k < k' then (k, v) :: (k', v') :: rest
    else if k' = k then (k, v) :: rest
    else (k', v') :: mapInsert rest k v

/-- `StableBTreeMap.remove`: drop the first entry with the given key and
return it alongside the new store. -/
def mapRemove : Store → String → Option ToDo × Store
  | [], _ => (none, [])
  | (k', v') :: rest, k =>
    if k' = k then (some v', rest)
    else
      let r := mapRemove rest k
      (r.1, (k', v') :: r.2)

/-- `StableBTreeMap.len`. -/
def mapLen (s : Store) : Nat := s.length

/-- `StableBTreeMap.values`: records in key order. -/
def mapValues (s : Store) : List ToDo := s.map Prod.snd

/-- `StableBTreeMap.items`: (key, record) pairs in key order. -/
def mapItems (s : Store) : Store := s

/-- Error message of the `IndexOutOfBounds` check in `getToDosByTag`. -/
def indexOutOfBoundsMsg : String := "One of the indexes is out of bounds."

/-- Error message of the `InvalidRange` check in `getToDosByTag`. -/
def invalidRangeMsg (startIndex endingIndex : Nat) : String :=
  "The startIndex: " ++ toString startIndex ++
    " can\x27t be greater than the endingIndex: " ++ toString endingIndex ++ "."

/-- Error message of the `RangeTooLarge` check in `getToDosByTag`. -/
def rangeTooLargeMsg : String := "You can only fetch two items at a time."

/-- `NotFound` message of `getToDo`. -/
def notFoundMsg (id : String) : String :=
  "A todo with id=" ++ id ++ " was not found."

/-- `NotFound` message of `updateToDo` and `completeToDo`. -/
def updateNotFoundMsg (id : String) : String :=
  "Couldn\x27t update a todo with id=" ++ id ++ ". Todo not found."

/-- `NotFound` message of `deleteToDo`. -/
def deleteNotFoundMsg (id : String) : String :=
  "Couldn\x27t delete a todo with id=" ++ id ++ ". Todo not found."

/-- `AlreadyCompleted` message of `completeToDo`. -/
def alreadyCompletedMsg (id : String) : String :=
  "Todo with id=" ++ id ++ " has already been completed."

/-- `getToDos`. -/
def getToDos (s : Store) : Except String (List ToDo) :=
  Except.ok (mapValues s)

/-- The `for (let i = startIndex; i < endingIndex; i++)` loop body of
`getToDosByTag`: push `toDos[i][1]` when its tag matches. -/
def filterRangeLoop (toDos : Store) (tag : String) (i stop : Nat) : List ToDo :=
  if i < stop then
    match toDos[i]? with
    | some p =>
      if p.2.tag = tag then p.2 :: filterRangeLoop toDos tag (i + 1) stop
      else filterRangeLoop toDos tag (i + 1) stop
    | none => filterRangeLoop toDos tag (i + 1) stop
  else []
termination_by stop - i
decreasing_by all_goals omega

/-- `getToDosByTag`. -/
def getToDosByTag (s : Store) (tag : String) (startIndex endingIndex : Nat) :
    Except String (List ToDo) :=
  let length := mapLen s
  if length < startIndex || length < endingIndex then
    Except.error indexOutOfBoundsMsg
  else if startIndex > endingIndex then
    Except.error (invalidRangeMsg startIndex endingIndex)
  else if endingIndex - startIndex > 2 then
    Except.error rangeTooLargeMsg
  else
    Except.ok (filterRangeLoop (mapItems s) tag startIndex endingIndex)

/-- `getToDo`. -/
def getToDo (s : Store) (id : String) : Except String ToDo :=
  match mapGet s id with
  | some todo => Except.ok todo
  | none => Except.error (notFoundMsg id)

/-- JS `a.startsWith-style` check on character lists. -/
def strStartsWith : List Char → List Char → Bool
  | [], _ => true
  | _ :: _, [] => false
  | a :: as, b :: bs => a = b && strStartsWith as bs

/-- JS `String.prototype.includes` on character lists: does `q` occur as a
contiguous substring? -/
def strIncludesAux (q : List Char) : List Char → Bool
  | [] => strStartsWith q []
  | c :: cs => strStartsWith q (c :: cs) || strIncludesAux q cs

/-- JS `s.includes(q)`. -/
def strIncludes (s q : String) : Bool := strIncludesAux q.data s.data

/-- `searchByTitleOrBody`. -/
def searchByTitleOrBody (s : Store) (query : String) :
    Except String (List ToDo) :=
  Except.ok ((mapValues s).filter fun todo =>
    strIncludes todo.title.toLower query.toLower ||
      strIncludes todo.body.toLower query.toLower)

/-- The `order` argument of `sortByDate`. -/
inductive SortOrder where
  | ascending
  | descending
deriving DecidableEq, Repr

/-- `sortByDate`.  The comparator computes `a.created_at - b.created_at`
(resp. `b.created_at - a.created_at`), and `created_at` is `nat64`, which
Azle represents as a JS `bigint`; `Array.prototype.sort` applies `ToNumber`
to every comparator result (ECMA-262 `CompareArrayElements`), and
`ToNumber` of a BigInt throws `TypeError`.  Every comparator call therefore
throws, and sorting a list of two or more elements must make at least one
comparator call, so the endpoint traps (`none`) on any store with at least
two records; with zero or one record no comparator call occurs and the
already-sorted values are returned.  The `order` argument never influences
the outcome. -/
def sortByDate (s : Store) (_order : SortOrder) :
    Option (Except String (List ToDo)) :=
  match mapValues s with
  | [] => some (Except.ok [])
  | [t] => some (Except.ok [t])
  | _ => none

/-- `checkPayload`. -/
def checkPayload (payload : ToDoPayload) : String :=
  if payload.title.length = 0 then "Empty title"
  else if payload.body.length = 0 then "Empty body"
  else ""

/-- `addToDo`; `uuidv4()` and `ic.time()` are the `newId` and `now`
parameters. -/
def addToDo (s : Store) (payload : ToDoPayload) (newId : String) (now : Nat) :
    Except String ToDo × Store :=
  let err := checkPayload payload
  if err.length > 0 then (Except.error err, s)
  else
    let todo : ToDo :=
      { id := newId, created_at := now, updated_at := none, completed := false,
        title := payload.title, body := payload.body, tag := payload.tag }
    (Except.ok todo, mapInsert s todo.id todo)

/-- `updateToDo`. -/
def updateToDo (s : Store) (id : String) (payload : ToDoPayload) (now : Nat) :
    Except String ToDo × Store :=
  let err := checkPayload payload
  if err.length > 0 then (Except.error err, s)
  else
    match mapGet s id with
    | some todo =>
      let updatedToDo : ToDo :=
        { todo with title := payload.title, body := payload.body,
                    tag := payload.tag, updated_at := some now }
      (Except.ok updatedToDo, mapInsert s todo.id updatedToDo)
    | none => (Except.error (updateNotFoundMsg id), s)

/-- `deleteToDo`. -/
def deleteToDo (s : Store) (id : String) : Except String ToDo × Store :=
  match mapRemove s id with
  | (some deletedTodo, s') => (Except.ok deletedTodo, s')
  | (none, s') => (Except.error (deleteNotFoundMsg id), s')

/-- `completeToDo`. -/
def completeToDo (s : Store) (id : String) (now : Nat) :
    Except String ToDo × Store :=
  match mapGet s id with
  | some todo =>
    if todo.completed then (Except.error (alreadyCompletedMsg id), s)
    else
      let updatedToDo : ToDo := { todo with completed := true, updated_at := some now }
      (Except.ok updatedToDo, mapInsert s todo.id updatedToDo)
  | none => (Except.error (updateNotFoundMsg id), s)

/-! ### Basic lemmas about the store model -/

theorem mapGet_insert_self (s : Store) (k : String) (v : ToDo) :
    mapGet (mapInsert s k v) k = some v := by
  induction s with
  | nil => simp [mapInsert, mapGet]
  | cons hd tl ih =>
    obtain ⟨k', v'⟩ := hd
    by_cases h1 : k < k'
    · simp [mapInsert, h1, mapGet]
    · by_cases h2 : k' = k
      · simp [mapInsert, h1, h2, mapGet]
      · simp [mapInsert, h1, h2, mapGet, ih]

theorem mapGet_insert_ne (s : Store) (k k' : String) (v : ToDo) (h : k' ≠ k) :
    mapGet (mapInsert s k v) k' = mapGet s k' := by
  have hne : ¬ k = k' := fun hh => h hh.symm
  induction s with
  | nil => simp [mapInsert, mapGet, hne]
  | cons hd tl ih =>
    obtain ⟨k0, v0⟩ := hd
    by_cases h1 : k < k0
    · simp [mapInsert, h1, mapGet, hne]
    · by_cases h2 : k0 = k
      · subst h2
        simp [mapInsert, h1, mapGet, hne]
      · simp [mapInsert, h1, h2, mapGet, ih]

theorem mapRemove_fst (s : Store) (k : String) :
    (mapRemove s k).1 = mapGet s k := by
  induction s with
  | nil => simp [mapRemove, mapGet]
  | cons hd tl ih =>
    obtain ⟨k0, v0⟩ := hd
    by_cases h1 : k0 = k
    · simp [mapRemove, h1, mapGet]
    · simp [mapRemove, h1, mapGet, ih]

theorem mapRemove_absent (s : Store) (k : String) (h : mapGet s k = none) :
    (mapRemove s k).2 = s := by
  induction s with
  | nil => simp [mapRemove]
  | cons hd tl ih =>
    obtain ⟨k0, v0⟩ := hd
    by_cases h1 : k0 = k
    · simp [mapGet, h1] at h
    · simp [mapGet, h1] at h
      simp [mapRemove, h1, ih h]

theorem mapGet_remove_ne (s : Store) (k k' : String) (h : k' ≠ k) :
    mapGet (mapRemove s k).2 k' = mapGet s k' := by
  have hne : ¬ k = k' := fun hh => h hh.symm
  induction s with
  | nil => simp [mapRemove]
  | cons hd tl ih =>
    obtain ⟨k0, v0⟩ := hd
    by_cases h1 : k0 = k
    · subst h1
      simp [mapRemove, mapGet, hne]
    · simp [mapRemove, h1, mapGet, ih]

theorem mapGet_eq_none_of_not_mem (s : Store) (k : String)
    (h : k ∉ s.map Prod.fst) : mapGet s k = none := by
  induction s with
  | nil => simp [mapGet]
  | cons hd tl ih =>
    obtain ⟨k0, v0⟩ := hd
    simp only [List.map_cons, List.mem_cons] at h
    push_neg at h
    have hne : ¬ k0 = k := fun hh => h.1 hh.symm
    simp [mapGet, hne, ih h.2]

theorem mapGet_remove_self (s : Store) (k : String)
    (hnd : (s.map Prod.fst).Nodup) :
    mapGet (mapRemove s k).2 k = none := by
  induction s with
  | nil => simp [mapRemove, mapGet]
  | cons hd tl ih =>
    obtain ⟨k0, v0⟩ := hd
    simp only [List.map_cons, List.nodup_cons] at hnd
    by_cases h1 : k0 = k
    · simp only [mapRemove, h1, if_pos rfl]
      exact mapGet_eq_none_of_not_mem tl k (h1 ▸ hnd.1)
    · simp [mapRemove, h1, mapGet, ih hnd.2]

/-- The scan loop of `getToDosByTag` computes the tag-filtered projection of
the positional slice `[i, stop)` of the store's entry sequence. -/
theorem filterRangeLoop_eq (toDos : Store) (tag : String) :
    ∀ n i stop, stop - i = n → stop ≤ toDos.length →
      filterRangeLoop toDos tag i stop =
        (((toDos.drop i).take (stop - i)).filter
          (fun p => decide (p.2.tag = tag))).map Prod.snd := by
  intro n
  induction n with
  | zero =>
    intro i stop hn _
    rw [filterRangeLoop]
    have hlt : ¬ i < stop := by omega
    simp [hlt, hn]
  | succ m ih =>
    intro i stop hn hstop
    have hlt : i < stop := by omega
    have hi : i < toDos.length := by omega
    rw [filterRangeLoop]
    rw [List.drop_eq_getElem_cons hi]
    have htake : stop - i = (stop - (i + 1)) + 1 := by omega
    rw [htake, List.take_succ_cons]
    have hrec := ih (i + 1) stop (by omega) hstop
    simp only [hlt, if_pos, List.getElem?_eq_getElem hi]
    by_cases htag : toDos[i].2.tag = tag
    · simp [htag, hrec]
    · simp [htag, hrec]

/-- The key-equals-id invariant of claim C10. -/
def IdInv (s : Store) : Prop := ∀ p ∈ s, p.2.id = p.1

theorem idInv_insert {s : Store} {k : String} {v : ToDo}
    (h : IdInv s) (hv : v.id = k) : IdInv (mapInsert s k v) := by
  induction s with
  | nil => intro p hp; simp [mapInsert] at hp; simp [hp, hv]
  | cons hd tl ih =>
    obtain ⟨k0, v0⟩ := hd
    have hhd : v0.id = k0 := h (k0, v0) (List.mem_cons_self _ _)
    have htl : IdInv tl := fun p hp => h p (List.mem_cons_of_mem _ hp)
    intro p hp
    by_cases h1 : k < k0
    · simp [mapInsert, h1] at hp
      rcases hp with hp | hp | hp
      · simp [hp, hv]
      · simp [hp, hhd]
      · exact h p (List.mem_cons_of_mem _ hp)
    · by_cases h2 : k0 = k
      · simp [mapInsert, h1, h2] at hp
        rcases hp with hp | hp
        · simp [hp, hv]
        · exact h p (List.mem_cons_of_mem _ hp)
      · simp only [mapInsert, if_neg h1, if_neg h2] at hp
        rcases List.mem_cons.mp hp with hp | hp
        · simp [hp, hhd]
        · exact ih htl p hp

theorem idInv_remove {s : Store} {k : String} (h : IdInv s) :
    IdInv (mapRemove s k).2 := by
  induction s with
  | nil => intro p hp; simp [mapRemove] at hp
  | cons hd tl ih =>
    obtain ⟨k0, v0⟩ := hd
    have htl : IdInv tl := fun p hp => h p (List.mem_cons_of_mem _ hp)
    intro p hp
    by_cases h1 : k0 = k
    · simp only [mapRemove, if_pos h1] at hp
      exact htl p hp
    · simp only [mapRemove, if_neg h1] at hp
      rcases List.mem_cons.mp hp with hp | hp
      · subst hp; exact h _ (List.mem_cons_self _ _)
      · exact ih htl p hp

/-! ### Claim C1: `getToDosByTag` success behaviour and error-check order -/

/-- C1: when `startIndex ≤ length`, `endingIndex ≤ length`,
`startIndex ≤ endingIndex` and `endingIndex - startIndex ≤ 2`, the call
succeeds and returns exactly the records at positional indices
`[startIndex, endingIndex)` of the key-ordered entry sequence whose tag
equals the given tag, in scan order; moreover the three error checks fire
in the order IndexOutOfBounds, InvalidRange, RangeTooLarge. -/
theorem getToDosByTag_spec (s : Store) (tag : String)
    (startIndex endingIndex : Nat) :
    (startIndex ≤ mapLen s → endingIndex ≤ mapLen s →
      startIndex ≤ endingIndex → endingIndex - startIndex ≤ 2 →
      getToDosByTag s tag startIndex endingIndex = Except.ok
        ((((mapItems s).drop startIndex).take (endingIndex - startIndex)).filter
          (fun p => decide (p.2.tag = tag)) |>.map Prod.snd)) ∧
    (mapLen s < startIndex ∨ mapLen s < endingIndex →
      getToDosByTag s tag startIndex endingIndex =
        Except.error indexOutOfBoundsMsg) ∧
    (startIndex ≤ mapLen s → endingIndex ≤ mapLen s →
      endingIndex < startIndex →
      getToDosByTag s tag startIndex endingIndex =
        Except.error (invalidRangeMsg startIndex endingIndex)) ∧
    (startIndex ≤ mapLen s → endingIndex ≤ mapLen s →
      startIndex ≤ endingIndex → 2 < endingIndex - startIndex →
      getToDosByTag s tag startIndex endingIndex =
        Except.error rangeTooLargeMsg) := by
  refine ⟨?_, ?_, ?_, ?_⟩
  · intro h1 h2 h3 h4
    have e1 : ¬ mapLen s < startIndex := by omega
    have e2 : ¬ mapLen s < endingIndex := by omega
    have e3 : ¬ startIndex > endingIndex := by omega
    have e4 : ¬ endingIndex - startIndex > 2 := by omega
    simp only [getToDosByTag, e1, e2, e3, e4, decide_False, Bool.or_self,
      Bool.false_eq_true, if_false, ite_false, if_neg, decide_eq_true_eq]
    rw [filterRangeLoop_eq (mapItems s) tag (endingIndex - startIndex)
      startIndex endingIndex rfl (by simpa [mapItems, mapLen] using h2)]
  · intro h
    have hb : (decide (mapLen s < startIndex) ||
        decide (mapLen s < endingIndex)) = true := by
      rcases h with h | h <;> simp [h]
    simp only [getToDosByTag]
    rw [if_pos hb]
  · intro h1 h2 h3
    have e1 : ¬ mapLen s < startIndex := by omega
    have e2 : ¬ mapLen s < endingIndex := by omega
    simp only [getToDosByTag]
    rw [if_neg (by simp [e1, e2]), if_pos (by simpa using h3)]
  · intro h1 h2 h3 h4
    have e1 : ¬ mapLen s < startIndex := by omega
    have e2 : ¬ mapLen s < endingIndex := by omega
    have e3 : ¬ startIndex > endingIndex := by omega
    simp only [getToDosByTag]
    rw [if_neg (by simp [e1, e2]), if_neg (by simpa using e3),
      if_pos (by simpa using h4)]

/-- C1 witness: concrete two-record store, window `[0, 2)`, tag `"x"`. -/
theorem getToDosByTag_spec_witness :
    getToDosByTag
      [("a", ⟨"a", "A", "B", "x", false, 0, none⟩),
       ("b", ⟨"b", "C", "D", "y", false, 1, none⟩)] "x" 0 2 =
    Except.ok [⟨"a", "A", "B", "x", false, 0, none⟩] := by
  have h := (getToDosByTag_spec
    [("a", ⟨"a", "A", "B", "x", false, 0, none⟩),
     ("b", ⟨"b", "C", "D", "y", false, 1, none⟩)] "x" 0 2).1
    (by decide) (by decide) (by decide) (by decide)
  rw [h]
  rfl

/-! ### Claim C3: `listByTag(tag, 3, 1)` -/

/-- C3 counterexample: on the empty store, `getToDosByTag tag 3 1` fails with
the IndexOutOfBounds message, not the InvalidRange message. -/
theorem getToDosByTag_invalidRange_cex :
    getToDosByTag ([] : Store) "x" 3 1 = Except.error indexOutOfBoundsMsg ∧
      indexOutOfBoundsMsg ≠ invalidRangeMsg 3 1 := by
  constructor
  · rfl
  · decide

/-- C3 (amended): `getToDosByTag tag 3 1` fails with InvalidRange on every
store holding at least 3 records, and with IndexOutOfBounds on smaller
stores. -/
theorem getToDosByTag_three_one (s : Store) (tag : String) :
    (3 ≤ mapLen s →
      getToDosByTag s tag 3 1 = Except.error (invalidRangeMsg 3 1)) ∧
    (mapLen s < 3 →
      getToDosByTag s tag 3 1 = Except.error indexOutOfBoundsMsg) := by
  constructor
  · intro h
    have e1 : ¬ mapLen s < 3 := by omega
    have e2 : ¬ mapLen s < 1 := by omega
    simp only [getToDosByTag]
    rw [if_neg (by simp [e1, e2]), if_pos (by simp)]
  · intro h
    simp only [getToDosByTag]
    rw [if_pos (by simp [h])]

/-- C3 (amended) witness: a concrete three-record store. -/
theorem getToDosByTag_three_one_witness :
    getToDosByTag
      [("a", ⟨"a", "A", "B", "x", false, 0, none⟩),
       ("b", ⟨"b", "C", "D", "x", false, 1, none⟩),
       ("c", ⟨"c", "E", "F", "x", false, 2, none⟩)] "x" 3 1 =
    Except.error (invalidRangeMsg 3 1) :=
  (getToDosByTag_three_one
    [("a", ⟨"a", "A", "B", "x", false, 0, none⟩),
     ("b", ⟨"b", "C", "D", "x", false, 1, none⟩),
     ("c", ⟨"c", "E", "F", "x", false, 2, none⟩)] "x").1 (by decide)

theorem string_length_zero {s : String} (h : s.length = 0) : s = "" := by
  cases s with
  | mk data =>
    have hd : data = [] := List.length_eq_zero.mp (by simpa using h)
    subst hd
    rfl

/-! ### Claim C4: `add` then `get` -/

/-- C4: for every payload with non-empty title and body, `addToDo` succeeds
with a record having `completed = false`, `updated_at` absent,
`created_at = now` and the payload's `title`/`body`/`tag`; `getToDo` on the
new id immediately afterwards returns that same record. -/
theorem addToDo_get_spec (s : Store) (payload : ToDoPayload) (newId : String)
    (now : Nat) (ht : payload.title ≠ "") (hb : payload.body ≠ "") :
    (addToDo s payload newId now).1 = Except.ok
      { id := newId, title := payload.title, body := payload.body,
        tag := payload.tag, completed := false, created_at := now,
        updated_at := none } ∧
    getToDo (addToDo s payload newId now).2 newId = Except.ok
      { id := newId, title := payload.title, body := payload.body,
        tag := payload.tag, completed := false, created_at := now,
        updated_at := none } := by
  have ht0 : ¬ payload.title.length = 0 := fun h => ht (string_length_zero h)
  have hb0 : ¬ payload.body.length = 0 := fun h => hb (string_length_zero h)
  have hchk : checkPayload payload = "" := by
    simp [checkPayload, ht0, hb0]
  constructor
  · simp [addToDo, hchk]
  · simp [addToDo, hchk, getToDo, mapGet_insert_self]

/-- C4 witness. -/
theorem addToDo_get_spec_witness :
    (addToDo [] ⟨"T", "B", "g"⟩ "id1" 5).1 = Except.ok
      ⟨"id1", "T", "B", "g", false, 5, none⟩ ∧
    getToDo (addToDo [] ⟨"T", "B", "g"⟩ "id1" 5).2 "id1" = Except.ok
      ⟨"id1", "T", "B", "g", false, 5, none⟩ :=
  addToDo_get_spec [] ⟨"T", "B", "g"⟩ "id1" 5 (by decide) (by decide)

/-! ### Claim C5: `update` field and frame behaviour -/

/-- C5: updating a stored record with a valid payload replaces
`title`/`body`/`tag`, sets `updated_at = now`, leaves `id`, `created_at`
and `completed` untouched (visible in the record-update expression), stores
the result under the same id, and leaves every other key's record
unchanged. -/
theorem updateToDo_spec (s : Store) (id : String) (payload : ToDoPayload)
    (now : Nat) (todo : ToDo) (hget : mapGet s id = some todo)
    (hid : todo.id = id) (ht : payload.title ≠ "") (hb : payload.body ≠ "") :
    (updateToDo s id payload now).1 = Except.ok
      { todo with title := payload.title, body := payload.body,
                  tag := payload.tag, updated_at := some now } ∧
    mapGet (updateToDo s id payload now).2 id = some
      { todo with title := payload.title, body := payload.body,
                  tag := payload.tag, updated_at := some now } ∧
    ∀ k, k ≠ id → mapGet (updateToDo s id payload now).2 k = mapGet s k := by
  have ht0 : ¬ payload.title.length = 0 := fun h => ht (string_length_zero h)
  have hb0 : ¬ payload.body.length = 0 := fun h => hb (string_length_zero h)
  have hchk : checkPayload payload = "" := by
    simp [checkPayload, ht0, hb0]
  refine ⟨?_, ?_, ?_⟩
  · simp [updateToDo, hchk, hget]
  · simp [updateToDo, hchk, hget, hid, mapGet_insert_self]
  · intro k hk
    simp only [updateToDo, hchk]
    simp only [String.length_empty, gt_iff_lt, Nat.lt_irrefl, if_false, hget,
      ite_false]
    rw [hid, mapGet_insert_ne s id k _ hk]

/-- C5 witness. -/
theorem updateToDo_spec_witness :
    (updateToDo [("a", ⟨"a", "A", "B", "x", false, 0, none⟩),
                 ("b", ⟨"b", "C", "D", "y", false, 1, none⟩)]
        "a" ⟨"T2", "B2", "g2"⟩ 7).1 = Except.ok
      ⟨"a", "T2", "B2", "g2", false, 0, some 7⟩ ∧
    mapGet (updateToDo [("a", ⟨"a", "A", "B", "x", false, 0, none⟩),
                        ("b", ⟨"b", "C", "D", "y", false, 1, none⟩)]
        "a" ⟨"T2", "B2", "g2"⟩ 7).2 "a" = some
      ⟨"a", "T2", "B2", "g2", false, 0, some 7⟩ := by
  have h := updateToDo_spec
    [("a", ⟨"a", "A", "B", "x", false, 0, none⟩),
     ("b", ⟨"b", "C", "D", "y", false, 1, none⟩)]
    "a" ⟨"T2", "B2", "g2"⟩ 7 ⟨"a", "A", "B", "x", false, 0, none⟩
    (by decide) (by decide) (by decide) (by decide)
  exact ⟨h.1, h.2.1⟩

/-! ### Claim C6: `complete` behaviour -/

/-- C6: on an already-completed record `completeToDo` fails with
AlreadyCompleted and leaves the store unchanged; on a not-yet-completed
record it returns and stores the record with `completed = true` and
`updated_at = now`; on an absent id it fails with NotFound. -/
theorem completeToDo_spec (s : Store) (id : String) (now : Nat) :
    (∀ todo, mapGet s id = some todo → todo.completed = true →
      (completeToDo s id now).1 = Except.error (alreadyCompletedMsg id) ∧
      (completeToDo s id now).2 = s) ∧
    (∀ todo, mapGet s id = some todo → todo.completed = false →
      (completeToDo s id now).1 = Except.ok
        { todo with completed := true, updated_at := some now } ∧
      mapGet (completeToDo s id now).2 todo.id = some
        { todo with completed := true, updated_at := some now }) ∧
    (mapGet s id = none →
      (completeToDo s id now).1 = Except.error (updateNotFoundMsg id) ∧
      (completeToDo s id now).2 = s) := by
  refine ⟨?_, ?_, ?_⟩
  · intro todo hget hc
    simp [completeToDo, hget, hc]
  · intro todo hget hc
    constructor
    · simp [completeToDo, hget, hc]
    · simp [completeToDo, hget, hc, mapGet_insert_self]
  · intro hget
    simp [completeToDo, hget]

/-- C6 witness: both the AlreadyCompleted branch and the success branch at
concrete stores. -/
theorem completeToDo_spec_witness :
    ((completeToDo [("a", ⟨"a", "A", "B", "x", true, 0, some 3⟩)] "a" 9).1 =
        Except.error (alreadyCompletedMsg "a") ∧
      (completeToDo [("a", ⟨"a", "A", "B", "x", true, 0, some 3⟩)] "a" 9).2 =
        [("a", ⟨"a", "A", "B", "x", true, 0, some 3⟩)]) ∧
    (completeToDo [("a", ⟨"a", "A", "B", "x", false, 0, none⟩)] "a" 9).1 =
      Except.ok ⟨"a", "A", "B", "x", true, 0, some 9⟩ := by
  refine ⟨?_, ?_⟩
  · exact (completeToDo_spec [("a", ⟨"a", "A", "B", "x", true, 0, some 3⟩)]
      "a" 9).1 ⟨"a", "A", "B", "x", true, 0, some 3⟩ (by decide) (by decide)
  · exact ((completeToDo_spec [("a", ⟨"a", "A", "B", "x", false, 0, none⟩)]
      "a" 9).2.1 ⟨"a", "A", "B", "x", false, 0, none⟩ (by decide)
      (by decide)).1

/-! ### Claim C7: shared validation rule, title before body, no mutation -/

/-- C7: an empty title yields the title-empty error even when the body is
also empty; a non-empty title with an empty body yields the body-empty
error; and on any validation failure neither `addToDo` nor `updateToDo`
mutates the store. -/
theorem checkPayload_spec (payload : ToDoPayload) :
    (payload.title = "" → checkPayload payload = "Empty title") ∧
    (payload.title ≠ "" → payload.body = "" →
      checkPayload payload = "Empty body") ∧
    (payload.title = "" ∨ payload.body = "" →
      ∀ (s : Store) (newId : String) (now : Nat) (id : String),
        (addToDo s payload newId now).2 = s ∧
        (addToDo s payload newId now).1 =
          Except.error (checkPayload payload) ∧
        (updateToDo s id payload now).2 = s ∧
        (updateToDo s id payload now).1 =
          Except.error (checkPayload payload)) := by
  refine ⟨?_, ?_, ?_⟩
  · intro h
    simp [checkPayload, h]
  · intro ht hb
    have ht0 : ¬ payload.title.length = 0 := fun h => ht (string_length_zero h)
    simp [checkPayload, ht0, hb]
  · intro h s newId now id
    have hchk : checkPayload payload = "Empty title" ∨
        checkPayload payload = "Empty body" := by
      rcases h with h | h
      · exact Or.inl (by simp [checkPayload, h])
      · by_cases ht : payload.title = ""
        · exact Or.inl (by simp [checkPayload, ht])
        · exact Or.inr (by
            have ht0 : ¬ payload.title.length = 0 :=
              fun hh => ht (string_length_zero hh)
            simp [checkPayload, ht0, h])
    have hlen : (checkPayload payload).length > 0 := by
      rcases hchk with h' | h' <;> rw [h'] <;> decide
    refine ⟨?_, ?_, ?_, ?_⟩ <;> simp [addToDo, updateToDo, hlen]

/-- C7 witness: empty title and empty body gives the title-empty error, and
`addToDo` leaves a concrete store untouched. -/
theorem checkPayload_spec_witness :
    checkPayload ⟨"", "", "g"⟩ = "Empty title" ∧
    (addToDo [("a", ⟨"a", "A", "B", "x", false, 0, none⟩)]
      ⟨"", "", "g"⟩ "id9" 4).2 =
      [("a", ⟨"a", "A", "B", "x", false, 0, none⟩)] := by
  refine ⟨?_, ?_⟩
  · exact (checkPayload_spec ⟨"", "", "g"⟩).1 (by decide)
  · exact ((checkPayload_spec ⟨"", "", "g"⟩).2.2 (Or.inl (by decide))
      [("a", ⟨"a", "A", "B", "x", false, 0, none⟩)] "id9" 4 "z").1

/-! ### Claim C9: `delete` then `get` -/

/-- C9: for a present id (in a store with distinct keys), `deleteToDo`
returns the removed record, a subsequent `getToDo` fails with NotFound, and
other keys are untouched; for an absent id it fails with NotFound and the
store is unchanged. -/
theorem deleteToDo_spec (s : Store) (id : String)
    (hnd : (s.map Prod.fst).Nodup) :
    (∀ todo, mapGet s id = some todo →
      (deleteToDo s id).1 = Except.ok todo ∧
      getToDo (deleteToDo s id).2 id = Except.error (notFoundMsg id) ∧
      ∀ k, k ≠ id → mapGet (deleteToDo s id).2 k = mapGet s k) ∧
    (mapGet s id = none →
      (deleteToDo s id).1 = Except.error (deleteNotFoundMsg id) ∧
      (deleteToDo s id).2 = s) := by
  have hfst := mapRemove_fst s id
  constructor
  · intro todo hget
    have hrm : (mapRemove s id).1 = some todo := by rw [hfst, hget]
    have hd1 : deleteToDo s id = (Except.ok todo, (mapRemove s id).2) := by
      simp only [deleteToDo]
      cases hx : mapRemove s id with
      | mk fst snd =>
        rw [hx] at hrm
        simp only at hrm
        subst hrm
        rfl
    refine ⟨by rw [hd1], ?_, ?_⟩
    · rw [hd1]
      simp [getToDo, mapGet_remove_self s id hnd]
    · intro k hk
      rw [hd1]
      exact mapGet_remove_ne s id k hk
  · intro hget
    have hrm : (mapRemove s id).1 = none := by rw [hfst, hget]
    have habs := mapRemove_absent s id hget
    simp only [deleteToDo]
    cases hx : mapRemove s id with
    | mk fst snd =>
      rw [hx] at hrm habs
      simp only at hrm habs
      subst hrm
      subst habs
      exact ⟨rfl, rfl⟩

/-- C9 witness. -/
theorem deleteToDo_spec_witness :
    (deleteToDo [("a", ⟨"a", "A", "B", "x", false, 0, none⟩),
                 ("b", ⟨"b", "C", "D", "y", false, 1, none⟩)] "a").1 =
      Except.ok ⟨"a", "A", "B", "x", false, 0, none⟩ ∧
    getToDo (deleteToDo [("a", ⟨"a", "A", "B", "x", false, 0, none⟩),
                         ("b", ⟨"b", "C", "D", "y", false, 1, none⟩)] "a").2
      "a" = Except.error (notFoundMsg "a") := by
  have h := (deleteToDo_spec
    [("a", ⟨"a", "A", "B", "x", false, 0, none⟩),
     ("b", ⟨"b", "C", "D", "y", false, 1, none⟩)] "a" (by decide)).1
    ⟨"a", "A", "B", "x", false, 0, none⟩ (by decide)
  exact ⟨h.1, h.2.1⟩

/-! ### Claim C8: `search` -/

theorem strStartsWith_iff (q l : List Char) :
    strStartsWith q l = true ↔ q <+: l := by
  induction q generalizing l with
  | nil => simp [strStartsWith]
  | cons a as ih =>
    cases l with
    | nil => simp [strStartsWith]
    | cons b bs => simp [strStartsWith, List.cons_prefix_cons, ih]

theorem strIncludesAux_iff (q l : List Char) :
    strIncludesAux q l = true ↔ q <:+: l := by
  induction l with
  | nil => simp [strIncludesAux, strStartsWith_iff]
  | cons c cs ih =>
    simp [strIncludesAux, strStartsWith_iff, ih, List.infix_cons_iff]

theorem strIncludes_iff (s q : String) :
    strIncludes s q = true ↔ q.data <:+: s.data := by
  simp [strIncludes, strIncludesAux_iff]

theorem strIncludes_eq_decide (s q : String) :
    strIncludes s q = decide (q.data <:+: s.data) := by
  by_cases h : q.data <:+: s.data
  · simp [h, (strIncludes_iff s q).mpr h]
  · have hne : strIncludes s q ≠ true :=
      fun hc => h ((strIncludes_iff s q).mp hc)
    simp [h, Bool.eq_false_iff.mpr hne]

theorem strIncludesAux_nil (l : List Char) : strIncludesAux [] l = true := by
  induction l with
  | nil => rfl
  | cons c cs ih => simp [strIncludesAux, strStartsWith]

/-- C8: `searchByTitleOrBody` always succeeds, returning exactly the records
whose lowercased title or body contains the lowercased query as a
contiguous substring (`List.IsInfix`), in store iteration order; the empty
query returns every record. -/
theorem searchByTitleOrBody_spec (s : Store) (query : String) :
    searchByTitleOrBody s query = Except.ok ((mapValues s).filter fun todo =>
      decide (query.toLower.data <:+: todo.title.toLower.data) ||
        decide (query.toLower.data <:+: todo.body.toLower.data)) ∧
    searchByTitleOrBody s "" = Except.ok (mapValues s) := by
  constructor
  · simp only [searchByTitleOrBody, Except.ok.injEq]
    apply List.filter_congr
    intro todo _
    rw [strIncludes_eq_decide, strIncludes_eq_decide]
  · have htl : "".toLower = "" := by
      rw [String.toLower, String.map, String.mapAux]
      exact dif_pos rfl
    simp only [searchByTitleOrBody, Except.ok.injEq, htl]
    apply List.filter_eq_self.mpr
    intro todo _
    have h1 : strIncludes todo.title.toLower "" = true := strIncludesAux_nil _
    simp [h1]

/-! ### Claim C2: `sortByDate` -/

/-- `sortByDate` traps on every store holding at least two records: each
comparator call throws `TypeError` (`ToNumber` of a BigInt result), and
sorting two or more elements requires at least one comparator call. -/
theorem sortByDate_traps (s : Store) (ord : SortOrder)
    (h : 2 ≤ (mapValues s).length) : sortByDate s ord = none := by
  rcases hv : mapValues s with _ | ⟨a, _ | ⟨b, rest⟩⟩
  · rw [hv] at h; simp at h
  · rw [hv] at h; simp at h
  · simp [sortByDate, hv]

/-- C2 (code bug): evaluated at a concrete two-record store, `sortByDate`
traps in both directions — the comparator's BigInt result makes
`Array.prototype.sort` throw `TypeError` — instead of returning the sorted
sequence the spec promises; only stores of size 0 or 1 answer. -/
theorem sortByDate_bug :
    sortByDate [("a", ⟨"a", "A", "B", "x", false, 0, none⟩),
                ("b", ⟨"b", "C", "D", "y", false, 1, none⟩)]
        SortOrder.ascending = none ∧
    sortByDate [("a", ⟨"a", "A", "B", "x", false, 0, none⟩),
                ("b", ⟨"b", "C", "D", "y", false, 1, none⟩)]
        SortOrder.descending = none ∧
    sortByDate [("a", ⟨"a", "A", "B", "x", false, 0, none⟩)]
        SortOrder.ascending =
      some (Except.ok [⟨"a", "A", "B", "x", false, 0, none⟩]) ∧
    sortByDate ([] : Store) SortOrder.descending = some (Except.ok []) :=
  ⟨rfl, rfl, rfl, rfl⟩

/-! ### Claim C10: the key-equals-id invariant of reachable stores -/

/-- Store states reachable from the empty store through the four mutating
endpoints, with arbitrary payloads, identifiers and timestamps. -/
inductive Reachable : Store → Prop where
  | empty : Reachable []
  | add (s : Store) (payload : ToDoPayload) (newId : String) (now : Nat) :
      Reachable s → Reachable (addToDo s payload newId now).2
  | update (s : Store) (id : String) (payload : ToDoPayload) (now : Nat) :
      Reachable s → Reachable (updateToDo s id payload now).2
  | del (s : Store) (id : String) :
      Reachable s → Reachable (deleteToDo s id).2
  | complete (s : Store) (id : String) (now : Nat) :
      Reachable s → Reachable (completeToDo s id now).2

theorem idInv_addToDo (s : Store) (p : ToDoPayload) (nid : String) (now : Nat)
    (h : IdInv s) : IdInv (addToDo s p nid now).2 := by
  by_cases hc : (checkPayload p).length > 0
  · simpa [addToDo, hc] using h
  · simp only [addToDo, hc, ite_false, if_neg hc]
    exact idInv_insert h rfl

theorem idInv_updateToDo (s : Store) (id : String) (p : ToDoPayload)
    (now : Nat) (h : IdInv s) : IdInv (updateToDo s id p now).2 := by
  by_cases hc : (checkPayload p).length > 0
  · simpa [updateToDo, hc] using h
  · cases hg : mapGet s id with
    | none => simpa [updateToDo, hc, hg] using h
    | some todo =>
      simp only [updateToDo, hc, ite_false, if_neg hc, hg]
      exact idInv_insert h rfl

theorem idInv_deleteToDo (s : Store) (id : String) (h : IdInv s) :
    IdInv (deleteToDo s id).2 := by
  have hrem : IdInv (mapRemove s id).2 := idInv_remove h
  simp only [deleteToDo]
  cases hx : mapRemove s id with
  | mk fst snd =>
    rw [hx] at hrem
    cases fst <;> simpa using hrem

theorem idInv_completeToDo (s : Store) (id : String) (now : Nat)
    (h : IdInv s) : IdInv (completeToDo s id now).2 := by
  cases hg : mapGet s id with
  | none => simpa [completeToDo, hg] using h
  | some todo =>
    by_cases hcpl : todo.completed
    · simpa [completeToDo, hg, hcpl] using h
    · simp only [completeToDo, hg, hcpl, ite_false, Bool.false_eq_true,
        if_false]
      exact idInv_insert h rfl

/-- C10: in every store state reachable from the empty store via the add,
update, delete and complete endpoints, each entry's map key equals the
`id` field of the record it maps to. -/
theorem reachable_idInv (s : Store) (h : Reachable s) : IdInv s := by
  induction h with
  | empty => intro p hp; simp at hp
  | add s payload newId now _ ih => exact idInv_addToDo s payload newId now ih
  | update s id payload now _ ih => exact idInv_updateToDo s id payload now ih
  | del s id _ ih => exact idInv_deleteToDo s id ih
  | complete s id now _ ih => exact idInv_completeToDo s id now ih

/-- C10 witness: the store reached by one concrete `addToDo` call from the
empty store satisfies the invariant. -/
theorem reachable_idInv_witness :
    IdInv (addToDo [] ⟨"T", "B", "g"⟩ "i1" 0).2 :=
  reachable_idInv _ (Reachable.add [] ⟨"T", "B", "g"⟩ "i1" 0 Reachable.empty)

end ICTodo
